import Mathlib

/-!
Verification of the s3bench benchmark engine (Go) against its design
specification.  Each Go function used by the claims is embedded as a Lean
definition, translated from the source:

* machine integers (`int`, `uint`, `int64`) are modelled as `Nat`/`Int`
  (the program never comes close to overflow for the quantities involved);
* `float64` values are modelled as rationals `ℚ`.  The percentile index
  computation, where rounding is observable, is modelled bit-exactly
  (binary64 round-to-nearest-even, `rnd64ND`/`percentileGo` below); the
  remaining float arithmetic (sums, averages, unit conversions), whose
  exact values no claim inspects, is exact rational arithmetic;
* Go runtime panics (out-of-range slice indexing / slicing) are modelled
  by `Option`, with `none` for the panic;
* the two channels are modelled by the ordered lists of values that cross
  them: `submitLoad` returns the list of requests it sends, and `Run`
  consumes the list of responses it receives.
-/

/-! ## Operation name constants (from the Go `const` block) -/

def opRead : String := "Read"

def opWrite : String := "Write"

def opHeadObj : String := "HeadObj"

def opGetObjTag : String := "GetObjTag"

def opPutObjTag : String := "PutObjTag"

def opValidate : String := "Validate"

/-- Test parameters (Go struct `Params`).  Only the fields read by the
embedded functions are kept; the two channels and the purely cosmetic /
lifecycle fields (`verbose`, `skipWrite`, endpoint list, ...) are not
consulted by any embedded function.  The Go fields `objectNamePrefix`,
`tagNamePrefix` and `tagValPrefix` are renamed to `...Pref`. -/
structure Params where
  numSamples : Nat
  numClients : Nat
  objectSize : Int
  objectNamePref : String
  bucketName : String
  sampleReads : Nat
  numTags : Nat
  tagNamePref : String
  tagValPref : String

/-- Samples per operation (Go `func (params Params) spo(op string) uint`,
utils.go): `numSamples` for Write, PutObjTag and Validate, otherwise
`numSamples * sampleReads`. -/
def Params.spo (params : Params) (op : String) : Nat :=
  if op = opWrite ∨ op = opPutObjTag ∨ op = opValidate then
    params.numSamples
  else
    params.numSamples * params.sampleReads

/-- Go `func percentile(dt []float64, i int) float64` (utils.go).
The index is `len(dt)-1` for `i >= 100`, `int(float64(i)/100*float64(len))`
for `0 < i < 100`, and `i` itself otherwise.  Here the interior index is
the exact-arithmetic idealization `i*len/100`; the bit-exact binary64
index the program computes is `percentileIdxGo`/`goFloatIdx` below, which
differs from the exact floor at rare `(i, len)` pairs (e.g. `(29, 100)`,
`(58, 50)`).  This exact variant is used only where the difference is
immaterial: the emptiness/guard analysis of the report builder, whose
branches and in-range behaviour agree for both indices.  The final `dt[i]`
panics when the index is out of range; the panic is modelled by `none`. -/
def percentileIdx (ln : Nat) (i : Int) : Int :=
  if 100 ≤ i then (ln : Int) - 1
  else if 0 < i ∧ i < 100 then i * (ln : Int) / 100
  else i

def percentile (dt : List ℚ) (i : Int) : Option ℚ :=
  if 0 ≤ percentileIdx dt.length i then
    dt.get? (percentileIdx dt.length i).toNat
  else none

/-- Go `func avg(dt []float64) float64` (utils.go): the sum of the samples
divided by their count.  On an empty list the Go code divides zero by zero
(the "fails on an empty list" case of the design); that degenerate division
is modelled by `none`. -/
def avg (dt : List ℚ) : Option ℚ :=
  if dt.length = 0 then none else some (dt.sum / (dt.length : ℚ))

/-- Go `func indexOf(sls []string, s string) int` (utils.go): index of the
first occurrence of `s`, `-1` when absent. -/
def indexOf (sls : List String) (s : String) : Int :=
  match sls with
  | [] => -1
  | v :: rest =>
    if v = s then 0
    else
      let r := indexOf rest s
      if r < 0 then -1 else r + 1

/-- Go `func genObjName(pref string, hsh string, idx uint) *string`
(utils.go): `fmt.Sprintf("%s_%s_%d", pref, hsh, idx)`. -/
def genObjName (pref : String) (hsh : String) (idx : Nat) : String :=
  pref ++ "_" ++ hsh ++ "_" ++ toString idx

/-! ## Claim C1 -/

/-- A concrete parameter value used by several counterexamples. -/
def paramsC1 : Params :=
  { numSamples := 2, numClients := 1, objectSize := 5,
    objectNamePref := "loadgen_test", bucketName := "bucketname",
    sampleReads := 3, numTags := 1,
    tagNamePref := "tag_name_", tagValPref := "tag_val_" }

/-- Request payloads (the AWS SDK input structs built by `submitLoad`,
s3bench.go).  The write payload body is the shared process-wide buffer, so no
per-request data is carried beyond bucket and key. -/
inductive ReqPayload where
  | putObject (bucket : String) (key : String)
  | getObject (bucket : String) (key : String)
  | headObject (bucket : String) (key : String)
  | putObjectTagging (bucket : String) (key : String)
      (tagSet : List (String × String))
  | getObjectTagging (bucket : String) (key : String)
deriving DecidableEq, Repr

/-- Go struct `Req { top string; req interface{} }`. -/
structure Req where
  top : String
  req : ReqPayload
deriving DecidableEq, Repr

/-- The target key of a request (the `Key` field of each SDK input). -/
def Req.key (r : Req) : String :=
  match r.req with
  | .putObject _ k => k
  | .getObject _ k => k
  | .headObject _ k => k
  | .putObjectTagging _ k _ => k
  | .getObjectTagging _ k => k

/-- The tag set synthesized for a `PutObjTag` request (`submitLoad`,
s3bench.go): `numTags` pairs `(tagNamePrefix+i, tagValPrefix+i)` for
`i = 0 .. numTags-1`. -/
def mkTagSet (params : Params) : List (String × String) :=
  (List.range params.numTags).map fun iTag =>
    (params.tagNamePref ++ toString iTag, params.tagValPref ++ toString iTag)

/-- One iteration of the `submitLoad` loop (s3bench.go): the request sent for
index `i`, with key `genObjName(prefix, hash, i % numSamples)`.  `hsh` is the
process-global `data_hash_base32`, passed explicitly.  The trailing
`panic("Developer error")` branch for an unrecognized operation is `none`. -/
def mkReq (params : Params) (hsh : String) (op : String) (i : Nat) :
    Option Req :=
  let key := genObjName params.objectNamePref hsh (i % params.numSamples)
  if op = opWrite then
    some ⟨op, .putObject params.bucketName key⟩
  else if op = opRead ∨ op = opValidate then
    some ⟨op, .getObject params.bucketName key⟩
  else if op = opHeadObj then
    some ⟨op, .headObject params.bucketName key⟩
  else if op = opPutObjTag then
    some ⟨op, .putObjectTagging params.bucketName key (mkTagSet params)⟩
  else if op = opGetObjTag then
    some ⟨op, .getObjectTagging params.bucketName key⟩
  else
    none

/-- Go `func (params *Params) submitLoad(op string)` (s3bench.go): sends
`spo(op)` requests to the request channel, modelled as the list of sent
requests in order; the whole call fails (`panic`) on an unknown operation. -/
def submitLoad (params : Params) (hsh : String) (op : String) :
    Option (List Req) :=
  (List.range (params.spo op)).mapM (mkReq params hsh op)

/-- Mapping a pointwise-`some` function monadically produces the list of values. -/
theorem mapM_eq_some_map {β : Type} (f : Nat → Option β) (g : Nat → β)
    (hf : ∀ i, f i = some (g i)) (l : List Nat) : l.mapM f = some (l.map g) := by
  induction l with
  | nil => rfl
  | cons a l ih => rw [List.mapM_cons, hf a, ih]; rfl

/-- Evaluating `mkReq` at each known operation. -/
theorem mkReq_write_eq (params : Params) (hsh : String) (i : Nat) :
    mkReq params hsh opWrite i = some ⟨opWrite,
      .putObject params.bucketName
        (genObjName params.objectNamePref hsh (i % params.numSamples))⟩ := by
  simp only [mkReq]; rw [if_pos trivial]

theorem mkReq_read_eq (params : Params) (hsh : String) (i : Nat) :
    mkReq params hsh opRead i = some ⟨opRead,
      .getObject params.bucketName
        (genObjName params.objectNamePref hsh (i % params.numSamples))⟩ := by
  simp only [mkReq]; rw [if_neg (by decide), if_pos (Or.inl trivial)]

theorem mkReq_validate_eq (params : Params) (hsh : String) (i : Nat) :
    mkReq params hsh opValidate i = some ⟨opValidate,
      .getObject params.bucketName
        (genObjName params.objectNamePref hsh (i % params.numSamples))⟩ := by
  simp only [mkReq]; rw [if_neg (by decide), if_pos (Or.inr trivial)]

theorem mkReq_head_eq (params : Params) (hsh : String) (i : Nat) :
    mkReq params hsh opHeadObj i = some ⟨opHeadObj,
      .headObject params.bucketName
        (genObjName params.objectNamePref hsh (i % params.numSamples))⟩ := by
  simp only [mkReq]
  rw [if_neg (by decide), if_neg (by decide), if_pos trivial]

theorem mkReq_putTag_eq (params : Params) (hsh : String) (i : Nat) :
    mkReq params hsh opPutObjTag i = some ⟨opPutObjTag,
      .putObjectTagging params.bucketName
        (genObjName params.objectNamePref hsh (i % params.numSamples))
        (mkTagSet params)⟩ := by
  simp only [mkReq]
  rw [if_neg (by decide), if_neg (by decide), if_neg (by decide),
    if_pos trivial]

theorem mkReq_getTag_eq (params : Params) (hsh : String) (i : Nat) :
    mkReq params hsh opGetObjTag i = some ⟨opGetObjTag,
      .getObjectTagging params.bucketName
        (genObjName params.objectNamePref hsh (i % params.numSamples))⟩ := by
  simp only [mkReq]
  rw [if_neg (by decide), if_neg (by decide), if_neg (by decide),
    if_neg (by decide), if_pos trivial]

/-- C1 (counterexample): the claim says `spo` returns
`numSamples * sampleReads` for `PutObjTag` (and for `Validate`), but the
source groups `PutObjTag` and `Validate` with `Write`: with `numSamples = 2`
and `sampleReads = 3` the code returns 2, not 6, for both. -/
theorem spo_putObjTag_counterexample :
    paramsC1.spo opPutObjTag = 2 ∧ paramsC1.spo opValidate = 2 ∧
      paramsC1.numSamples * paramsC1.sampleReads = 6 := by
  refine ⟨?_, ?_, rfl⟩ <;> decide

/-- C1 (amended): the expected batch size computed by `spo` — and the number
of requests `submitLoad` emits — is `numSamples` for `Write`, `PutObjTag`
and `Validate`, and `numSamples * sampleReads` for `Read`, `HeadObj` and
`GetObjTag`. -/
theorem spo_batch_sizes (params : Params) (hsh : String) :
    params.spo opWrite = params.numSamples ∧
    params.spo opPutObjTag = params.numSamples ∧
    params.spo opValidate = params.numSamples ∧
    params.spo opRead = params.numSamples * params.sampleReads ∧
    params.spo opHeadObj = params.numSamples * params.sampleReads ∧
    params.spo opGetObjTag = params.numSamples * params.sampleReads ∧
    (∃ reqs, submitLoad params hsh opWrite = some reqs ∧
      reqs.length = params.numSamples) ∧
    (∃ reqs, submitLoad params hsh opPutObjTag = some reqs ∧
      reqs.length = params.numSamples) ∧
    (∃ reqs, submitLoad params hsh opValidate = some reqs ∧
      reqs.length = params.numSamples) ∧
    (∃ reqs, submitLoad params hsh opRead = some reqs ∧
      reqs.length = params.numSamples * params.sampleReads) ∧
    (∃ reqs, submitLoad params hsh opHeadObj = some reqs ∧
      reqs.length = params.numSamples * params.sampleReads) ∧
    (∃ reqs, submitLoad params hsh opGetObjTag = some reqs ∧
      reqs.length = params.numSamples * params.sampleReads) := by
  have hW : params.spo opWrite = params.numSamples := by
    simp only [Params.spo]; rw [if_pos (Or.inl trivial)]
  have hPT : params.spo opPutObjTag = params.numSamples := by
    simp only [Params.spo]; rw [if_pos (Or.inr (Or.inl trivial))]
  have hV : params.spo opValidate = params.numSamples := by
    simp only [Params.spo]; rw [if_pos (Or.inr (Or.inr trivial))]
  have hR : params.spo opRead = params.numSamples * params.sampleReads := by
    simp only [Params.spo]; rw [if_neg (by decide)]
  have hH : params.spo opHeadObj = params.numSamples * params.sampleReads := by
    simp only [Params.spo]; rw [if_neg (by decide)]
  have hGT : params.spo opGetObjTag = params.numSamples * params.sampleReads := by
    simp only [Params.spo]; rw [if_neg (by decide)]
  have mW := mkReq_write_eq params hsh
  have mPT := mkReq_putTag_eq params hsh
  have mV := mkReq_validate_eq params hsh
  have mR := mkReq_read_eq params hsh
  have mH := mkReq_head_eq params hsh
  have mGT := mkReq_getTag_eq params hsh
  have sub : ∀ (op : String) (g : Nat → Req),
      (∀ i, mkReq params hsh op i = some (g i)) →
      submitLoad params hsh op = some ((List.range (params.spo op)).map g) :=
    fun op g hg => mapM_eq_some_map _ g hg _
  refine ⟨hW, hPT, hV, hR, hH, hGT,
    ⟨_, sub _ _ mW, by simp [hW]⟩, ⟨_, sub _ _ mPT, by simp [hPT]⟩,
    ⟨_, sub _ _ mV, by simp [hV]⟩, ⟨_, sub _ _ mR, by simp [hR]⟩,
    ⟨_, sub _ _ mH, by simp [hH]⟩, ⟨_, sub _ _ mGT, by simp [hGT]⟩⟩

/-! ## Claim C9 -/

/-- The parameters of the spec example: `sampleCount = 10`,
`readRepeat = 3`. -/
def paramsC9 : Params :=
  { numSamples := 10, numClients := 2, objectSize := 1024,
    objectNamePref := "loadgen_test", bucketName := "bucketname",
    sampleReads := 3, numTags := 1,
    tagNamePref := "tag_name_", tagValPref := "tag_val_" }

/-- C9: for every read/head/tag/validate-class request `i`, the object key is
`genObjName(prefix, hash, i % numSamples)`, i.e. `prefix_hash_(i mod
numSamples)`; with `numSamples = 10` and `sampleReads = 3` the read batch has
30 requests whose object indices cycle `0..9, 0..9, 0..9`. -/
theorem request_key_derivation :
    (∀ (params : Params) (hsh : String) (i : Nat),
      (mkReq params hsh opRead i).map Req.key =
        some (genObjName params.objectNamePref hsh (i % params.numSamples)) ∧
      (mkReq params hsh opHeadObj i).map Req.key =
        some (genObjName params.objectNamePref hsh (i % params.numSamples)) ∧
      (mkReq params hsh opGetObjTag i).map Req.key =
        some (genObjName params.objectNamePref hsh (i % params.numSamples)) ∧
      (mkReq params hsh opPutObjTag i).map Req.key =
        some (genObjName params.objectNamePref hsh (i % params.numSamples)) ∧
      (mkReq params hsh opValidate i).map Req.key =
        some (genObjName params.objectNamePref hsh (i % params.numSamples))) ∧
    paramsC9.spo opRead = 30 ∧
    (List.range (paramsC9.spo opRead)).map (fun i => i % paramsC9.numSamples) =
      [0, 1, 2, 3, 4, 5, 6, 7, 8, 9, 0, 1, 2, 3, 4, 5, 6, 7, 8, 9,
       0, 1, 2, 3, 4, 5, 6, 7, 8, 9] := by
  refine ⟨fun params hsh i => ⟨?_, ?_, ?_, ?_, ?_⟩, by decide, by decide⟩
  · rw [mkReq_read_eq]; rfl
  · rw [mkReq_head_eq]; rfl
  · rw [mkReq_getTag_eq]; rfl
  · rw [mkReq_putTag_eq]; rfl
  · rw [mkReq_validate_eq]; rfl

/-! ## The Result Aggregator (`Run`, s3bench.go) -/

/-- Go struct `Resp { err error; duration; numBytes int64; ttfb }`
(s3bench.go types).  `err` is `none` for a successful request; durations are
already in seconds (the Go code only ever reads `duration.Seconds()`). -/
structure Resp where
  err : Option String
  duration : ℚ
  numBytes : Int
  ttfb : ℚ
deriving DecidableEq, Repr

/-- Go struct `Result` (s3bench.go types), same field order. -/
structure Result where
  operation : String
  bytesTransmitted : Int
  opDurations : List ℚ
  totalDuration : ℚ
  opTtfb : List ℚ
  opErrors : List String
deriving DecidableEq, Repr

/-- Fixed two-decimal rendering of a rational, for Go's `%0.2f` verb.  (Go
rounds ties to even; the tie-breaking direction is irrelevant to every claim,
which treat the error string as opaque.) -/
def fmtF2 (q : ℚ) : String :=
  let n : Int := round (q * 100)
  let sign := if n < 0 then "-" else ""
  let m := n.natAbs
  let r := m % 100
  sign ++ toString (m / 100) ++ "." ++
    (if r < 10 then "0" else "") ++ toString r

/-- The error string built by `Run` for a failed request (s3bench.go):
`fmt.Sprintf("%v(%d) completed in %0.2fs with error %s", op, i+1,
resp.duration.Seconds(), resp.err)`. -/
def errString (op : String) (i : Nat) (duration : ℚ) (e : String) : String :=
  op ++ "(" ++ toString (i + 1) ++ ") completed in " ++ fmtF2 duration ++
    "s with error " ++ e

/-- The Result value `Run` starts from:
`Result{opDurations: make([]float64, 0, opSamples), operation: op}` —
every other field is the Go zero value. -/
def emptyResult (op : String) : Result :=
  { operation := op, bytesTransmitted := 0, opDurations := [],
    totalDuration := 0, opTtfb := [], opErrors := [] }

/-- One iteration of `Run`'s collection loop (s3bench.go): a response with an
error appends one formatted string to `opErrors`; a successful response adds
`params.objectSize` to `bytesTransmitted` and appends the duration and
time-to-first-byte to `opDurations` / `opTtfb`. -/
def runStep (params : Params) (op : String) (i : Nat) (result : Result)
    (resp : Resp) : Result :=
  match resp.err with
  | some e =>
    { result with
        opErrors := result.opErrors ++ [errString op i resp.duration e] }
  | none =>
    { result with
        bytesTransmitted := result.bytesTransmitted + params.objectSize,
        opDurations := result.opDurations ++ [resp.duration],
        opTtfb := result.opTtfb ++ [resp.ttfb] }

/-- The collection loop of `Run`: fold `runStep` over the responses received
from the response channel (in arrival order), counting iterations in `i`. -/
def collectGo (params : Params) (op : String) :
    Nat → Result → List Resp → Result
  | _, result, [] => result
  | i, result, resp :: rest =>
    collectGo params op (i + 1) (runStep params op i result resp) rest

/-- Go `sort.Float64s` (ascending). -/
def sortQ (l : List ℚ) : List ℚ := List.insertionSort (· ≤ ·) l

/-- Go `func (params *Params) Run(op string) Result` (s3bench.go): collect
the expected number of responses (modelled by the list `resps` of responses
read off the channel), then record the wall-clock duration of the batch and
sort both sample lists ascending. -/
def Run (params : Params) (op : String) (resps : List Resp) (wallClock : ℚ) :
    Result :=
  let result := collectGo params op 0 (emptyResult op) resps
  { result with
      totalDuration := wallClock,
      opDurations := sortQ result.opDurations,
      opTtfb := sortQ result.opTtfb }

/-! ## Claim C2 -/

/-- Each loop iteration classifies its response into exactly one of
`opDurations` / `opErrors`, so the two lengths always sum to the number of
responses consumed. -/
theorem collectGo_length (params : Params) (op : String) :
    ∀ (resps : List Resp) (i : Nat) (result : Result),
      (collectGo params op i result resps).opDurations.length +
        (collectGo params op i result resps).opErrors.length =
      result.opDurations.length + result.opErrors.length + resps.length := by
  intro resps
  induction resps with
  | nil => intro i result; simp [collectGo]
  | cons resp rest ih =>
    intro i result
    rw [collectGo, ih]
    cases h : resp.err with
    | none => simp [runStep, h]; omega
    | some e => simp [runStep, h]; omega

/-- C2: for a batch whose expected size is `S = spo(op)`, consuming the `S`
received responses yields a Result with
`len(opDurations) + len(opErrors) = S`, and the finalized Result has both
sample lists sorted ascending. -/
theorem run_durations_errors_partition (params : Params) (op : String)
    (resps : List Resp) (wallClock : ℚ)
    (h : resps.length = params.spo op) :
    (Run params op resps wallClock).opDurations.length +
      (Run params op resps wallClock).opErrors.length = params.spo op ∧
    (Run params op resps wallClock).totalDuration = wallClock ∧
    List.Sorted (· ≤ ·) (Run params op resps wallClock).opDurations ∧
    List.Sorted (· ≤ ·) (Run params op resps wallClock).opTtfb := by
  refine ⟨?_, rfl, ?_, ?_⟩
  · have hlen := collectGo_length params op resps 0 (emptyResult op)
    have hperm :=
      (List.perm_insertionSort (· ≤ ·)
        (collectGo params op 0 (emptyResult op) resps).opDurations).length_eq
    simp only [Run, sortQ]
    simp only [sortQ] at hperm
    rw [hperm, hlen, h]
    simp [emptyResult]
  · exact List.sorted_insertionSort _ _
  · exact List.sorted_insertionSort _ _

/-- Witness for C2 at a concrete batch: `paramsC1` has
`spo(Write) = numSamples = 2`; one success and one failure. -/
theorem run_durations_errors_partition_witness :
    ([⟨none, 1, 5, 1⟩, ⟨some "boom", 2, 0, 1⟩] : List Resp).length =
      paramsC1.spo opWrite ∧
    (Run paramsC1 opWrite [⟨none, 1, 5, 1⟩, ⟨some "boom", 2, 0, 1⟩]
        3).opDurations.length +
      (Run paramsC1 opWrite [⟨none, 1, 5, 1⟩, ⟨some "boom", 2, 0, 1⟩]
        3).opErrors.length = paramsC1.spo opWrite :=
  ⟨by decide,
    (run_durations_errors_partition paramsC1 opWrite
      [⟨none, 1, 5, 1⟩, ⟨some "boom", 2, 0, 1⟩] 3 (by decide)).1⟩

/-! ## Claims C8 and C10 -/

/-- A successful `GetObjTag` response as built by `startClient`
(s3bench.go): in the `*s3.GetObjectTaggingInput` case `numBytes` is never
assigned and keeps its initial value 0. -/
def respTagOk : Resp := ⟨none, 1, 0, 1⟩

/-- Parameters with `numSamples = sampleReads = 1` and `objectSize = 5`,
so a `GetObjTag` batch has expected size 1. -/
def paramsC8 : Params :=
  { numSamples := 1, numClients := 1, objectSize := 5,
    objectNamePref := "loadgen_test", bucketName := "bucketname",
    sampleReads := 1, numTags := 1,
    tagNamePref := "tag_name_", tagValPref := "tag_val_" }

/-- C8 (counterexample): `Run` adds `params.objectSize`, not
`resp.numBytes`, for every successful response.  A successful `GetObjTag`
batch of one response with `numBytes = 0` ends with
`bytesTransmitted = 5 ≠ 0`. -/
theorem bytesTransmitted_tag_counterexample :
    [respTagOk].length = paramsC8.spo opGetObjTag ∧
    respTagOk.err = none ∧ respTagOk.numBytes = 0 ∧
    (Run paramsC8 opGetObjTag [respTagOk] 1).bytesTransmitted = 5 := by
  refine ⟨by decide, rfl, rfl, ?_⟩
  rfl

/-- The collection loop as a function of the initial Result. -/
theorem collectGo_effects (params : Params) (op : String) :
    ∀ (resps : List Resp) (i : Nat) (result : Result),
      (collectGo params op i result resps).bytesTransmitted =
        result.bytesTransmitted +
          ((resps.countP fun r => r.err.isNone) : Int) * params.objectSize ∧
      (collectGo params op i result resps).opDurations =
        result.opDurations ++
          (resps.filter fun r => r.err.isNone).map Resp.duration ∧
      (collectGo params op i result resps).opTtfb =
        result.opTtfb ++
          (resps.filter fun r => r.err.isNone).map Resp.ttfb := by
  intro resps
  induction resps with
  | nil => intro i result; simp [collectGo]
  | cons resp rest ih =>
    intro i result
    rw [collectGo]
    obtain ⟨ihb, ihd, iht⟩ := ih (i + 1) (runStep params op i result resp)
    cases h : resp.err with
    | none =>
      refine ⟨?_, ?_, ?_⟩
      · rw [ihb]; simp [runStep, h, List.countP_cons]; ring
      · rw [ihd]; simp [runStep, h]
      · rw [iht]; simp [runStep, h]
    | some e =>
      refine ⟨?_, ?_, ?_⟩
      · rw [ihb]; simp [runStep, h, List.countP_cons]
      · rw [ihd]; simp [runStep, h]
      · rw [iht]; simp [runStep, h]

/-- C8 (amended): for every batch, a successful response contributes
`params.objectSize` (not its own `numBytes`) to `bytesTransmitted`, so the
total is `(number of successes) * objectSize`; the durations and
time-to-first-byte values of the successful responses are collected (and
finally sorted) in `opDurations` / `opTtfb`. -/
theorem run_success_effects (params : Params) (op : String)
    (resps : List Resp) (wallClock : ℚ) :
    (Run params op resps wallClock).bytesTransmitted =
      ((resps.countP fun r => r.err.isNone) : Int) * params.objectSize ∧
    (Run params op resps wallClock).opDurations =
      sortQ ((resps.filter fun r => r.err.isNone).map Resp.duration) ∧
    (Run params op resps wallClock).opTtfb =
      sortQ ((resps.filter fun r => r.err.isNone).map Resp.ttfb) := by
  obtain ⟨hb, hd, ht⟩ :=
    collectGo_effects params op resps 0 (emptyResult op)
  refine ⟨?_, ?_, ?_⟩
  · simp only [Run]; rw [hb]; simp [emptyResult]
  · simp only [Run, sortQ]; rw [hd]; simp [emptyResult]
  · simp only [Run, sortQ]; rw [ht]; simp [emptyResult]

/-- C10: frame property of one collection-loop iteration.  An erroring
response appends exactly one string to `opErrors` and leaves
`bytesTransmitted`, `opDurations` and `opTtfb` unchanged; a successful
response leaves `opErrors` unchanged. -/
theorem runStep_frame (params : Params) (op : String) (i : Nat)
    (result : Result) (resp : Resp) :
    (∀ e, resp.err = some e →
      (runStep params op i result resp).opErrors =
        result.opErrors ++ [errString op i resp.duration e] ∧
      (runStep params op i result resp).bytesTransmitted =
        result.bytesTransmitted ∧
      (runStep params op i result resp).opDurations = result.opDurations ∧
      (runStep params op i result resp).opTtfb = result.opTtfb) ∧
    (resp.err = none →
      (runStep params op i result resp).opErrors = result.opErrors) := by
  constructor
  · intro e he
    refine ⟨?_, ?_, ?_, ?_⟩ <;> simp [runStep, he]
  · intro he
    simp [runStep, he]

/-- Witness for C10 at concrete responses, one erroring and one
successful. -/
theorem runStep_frame_witness :
    (runStep paramsC1 opWrite 0 (emptyResult opWrite)
        ⟨some "boom", 2, 0, 1⟩).opErrors =
      [errString opWrite 0 2 "boom"] ∧
    (runStep paramsC1 opWrite 0 (emptyResult opWrite)
        ⟨none, 2, 5, 1⟩).opErrors = [] := by
  have h1 :=
    (runStep_frame paramsC1 opWrite 0 (emptyResult opWrite)
      ⟨some "boom", 2, 0, 1⟩).1 "boom" rfl
  have h2 :=
    (runStep_frame paramsC1 opWrite 0 (emptyResult opWrite)
      ⟨none, 2, 5, 1⟩).2 rfl
  exact ⟨by simpa [emptyResult] using h1.1, by simpa [emptyResult] using h2⟩

/-! ## Claim C3 -/

/-- Fuel-driven binary logarithm: `natLog2F fuel n` is `⌊log2 n⌋` for
`n ≥ 1` whenever `fuel ≥ n` (the recursion halves `n`); structural in the
fuel so that it evaluates inside the kernel. -/
def natLog2F : Nat → Nat → Nat
  | 0, _ => 0
  | fuel + 1, n => if 2 ≤ n then natLog2F fuel (n / 2) + 1 else 0

/-- The floor of `log2 (n/d)` for a positive rational given as a
numerator/denominator pair (`n, d ≥ 1`): for `n/d ≥ 1` it is
`⌊log2 ⌊n/d⌋⌋`; for `n/d < 1` it is `-⌈log2 (d/n)⌉`. -/
def floorLog2ND (n d : Nat) : Int :=
  if d ≤ n then (natLog2F n (n / d) : Int)
  else
    let x := d / n
    let k0 := natLog2F d x
    if d = n * 2 ^ k0 then -(k0 : Int) else -(k0 : Int) - 1

/-- Round the positive rational `n/d` to the nearest integer, ties to even
(the IEEE-754 default rounding used by Go's float64 arithmetic). -/
def rheND (n d : Nat) : Nat :=
  let f := n / d
  let r := n % d
  if 2 * r < d then f
  else if d < 2 * r then f + 1
  else if f % 2 = 0 then f else f + 1

/-- Round the positive rational `n/d` to IEEE-754 binary64 (round to
nearest, ties to even), returned as a numerator/denominator pair: scale
into `[2^52, 2^53)`, round the 53-bit mantissa half-to-even, scale back.
Exact for `n = 0`.  Subnormals and overflow are not modelled — every value
the percentile computation can produce (`p/100 ∈ [0.01, 0.99]` and its
product with a slice length) lies in the normal range. -/
def rnd64ND (n d : Nat) : Nat × Nat :=
  let e : Int := floorLog2ND n d - 52
  if 0 ≤ e then
    (rheND n (d * 2 ^ e.toNat) * 2 ^ e.toNat, 1)
  else
    let k := (-e).toNat
    (rheND (n * 2 ^ k) d, 2 ^ k)

/-- Bit-exact model of Go's `int(float64(i)/100*float64(ln))`
(utils.go percentile, the `0 < i < 100` branch): `float64(i)` is exact for
`0 < i < 100`; the division by the exact constant 100 rounds once; the
conversion `float64(ln)` rounds (a no-op for `ln < 2^53`); the
multiplication rounds once; `int(..)` truncates toward zero (the value is
nonnegative, so truncation is the floor `p.1 / p.2`). -/
def goFloatIdx (i ln : Nat) : Nat :=
  let d1 := rnd64ND i 100
  let f2 := rnd64ND ln 1
  let p := rnd64ND (d1.1 * f2.1) (d1.2 * f2.2)
  p.1 / p.2

/-- The index Go's `percentile` reads (utils.go), with the interior branch
computed in binary64 exactly as the program does.  (`percentileIdx` above
is the exact-arithmetic idealization of the same expression, retained for
the report-guard analysis; the two differ at rare `(i, ln)` pairs such as
`(29, 100)` and `(58, 50)`, where the rounded product falls just below the
exact integer.) -/
def percentileIdxGo (ln : Nat) (i : Int) : Int :=
  if 100 ≤ i then (ln : Int) - 1
  else if 0 < i ∧ i < 100 then (goFloatIdx i.toNat ln : Int)
  else i

/-- Go's `percentile` (utils.go) with the bit-exact binary64 index: the
final `dt[i]` panics when the index is out of range, modelled by `none`. -/
def percentileGo (dt : List ℚ) (i : Int) : Option ℚ :=
  if 0 ≤ percentileIdxGo dt.length i then
    dt.get? (percentileIdxGo dt.length i).toNat
  else none

/-- C3 (counterexample): the claim says the element at index
`⌊p/100 * len⌋` is returned, but the program computes the index in
binary64: at `p = 29`, `len = 100` the rounded product is
`28.999999999999996447…`, truncating to index 28, while the exact floor is
29 — on the sorted list `0, 1, …, 99` the program returns 28, not the
element 29 at the claimed index. -/
theorem percentile_float_index_counterexample :
    percentileIdxGo 100 29 = 28 ∧
    (29 : Int) * 100 / 100 = 29 ∧
    percentileGo ((List.range 100).map fun k => (k : ℚ)) 29 = some 28 ∧
    ((List.range 100).map fun k => (k : ℚ)).get? 29 = some 29 ∧
    (28 : ℚ) ≠ 29 := by
  refine ⟨by decide, by decide, by decide, by decide, by decide⟩

/-- C3 (amended): on a non-empty ascending-sorted sample list,
`percentileGo` returns the first element for `p = 0` and the last element
for `p = 100`; for `0 < p < 100` it returns the element at the nonnegative
binary64-computed index `int(float64(p)/100*float64(len))`, and whenever
that index coincides with the exact `⌊p·len/100⌋` — all but rare
`(p, len)` pairs — it is the element at the exact index of the original
claim. -/
theorem percentileGo_sorted_spec (dt : List ℚ) (hne : dt ≠ [])
    (hs : List.Sorted (· ≤ ·) dt) :
    percentileGo dt 0 = dt.head? ∧
    percentileGo dt 100 = dt.getLast? ∧
    ∀ p : Int, 0 < p → p < 100 →
      percentileGo dt p = dt.get? (goFloatIdx p.toNat dt.length) ∧
      0 ≤ percentileIdxGo dt.length p ∧
      (percentileIdxGo dt.length p = p * (dt.length : Int) / 100 →
        percentileGo dt p = dt.get? (p.toNat * dt.length / 100)) := by
  refine ⟨?_, ?_, ?_⟩
  · have hi : percentileIdxGo dt.length 0 = 0 := by
      simp only [percentileIdxGo]
      rw [if_neg (by decide), if_neg (by decide)]
    rw [percentileGo, hi, if_pos le_rfl]
    cases dt with
    | nil => exact absurd rfl hne
    | cons a t => rfl
  · have hi : percentileIdxGo dt.length 100 = (dt.length : Int) - 1 := by
      simp only [percentileIdxGo]
      rw [if_pos le_rfl]
    have hlen : 0 < dt.length := List.length_pos.mpr hne
    rw [percentileGo, hi, if_pos (by omega), List.getLast?_eq_getElem?,
      ← List.get?_eq_getElem?]
    congr 1
    omega
  · intro p hp0 hp100
    have hi : percentileIdxGo dt.length p =
        ((goFloatIdx p.toNat dt.length : Nat) : Int) := by
      simp only [percentileIdxGo]
      rw [if_neg (by omega), if_pos ⟨hp0, hp100⟩]
    have hmain : percentileGo dt p =
        dt.get? (goFloatIdx p.toNat dt.length) := by
      rw [percentileGo, hi, if_pos (Int.natCast_nonneg _),
        Int.toNat_natCast]
    refine ⟨hmain, by rw [hi]; exact Int.natCast_nonneg _, ?_⟩
    intro heq
    have hj : p * (dt.length : Int) / 100 =
        ((p.toNat * dt.length / 100 : Nat) : Int) := by
      rw [Int.ofNat_ediv]
      push_cast [Int.toNat_of_nonneg (le_of_lt hp0)]
      rfl
    have h2 : goFloatIdx p.toNat dt.length =
        p.toNat * dt.length / 100 := by
      have := (hi.symm.trans heq).trans hj
      exact_mod_cast this
    rw [hmain, h2]

/-- Witness for C3 on the length-3 sorted list `[1, 2, 3]` at `p = 50`,
where the binary64 index agrees with the exact floor (`1`). -/
theorem percentileGo_sorted_spec_witness :
    ([(1 : ℚ), 2, 3] ≠ []) ∧
    percentileGo [(1 : ℚ), 2, 3] 0 = some 1 ∧
    percentileGo [(1 : ℚ), 2, 3] 100 = some 3 ∧
    percentileGo [(1 : ℚ), 2, 3] 50 = some 2 := by
  have h := percentileGo_sorted_spec [(1 : ℚ), 2, 3] (by decide)
    (by simp [List.Sorted]; norm_num)
  refine ⟨by decide, ?_, ?_, ?_⟩
  · rw [h.1]; rfl
  · rw [h.2.1]; rfl
  · have h50 := (h.2.2 50 (by decide) (by decide)).2.2 (by decide)
    rw [h50]; rfl

/-! ## The report builder (`Result.report`, report.go) -/

/-- Values stored in the report mapping (`map[string]interface{}` in Go):
strings, Go ints (counts), float64 scalars, and string lists. -/
inductive RVal where
  | str (s : String)
  | int (n : Int)
  | num (q : ℚ)
  | strList (l : List String)
deriving DecidableEq, Repr

/-- The eight `nm+" Max" ... nm+" 25th-ile"` statistics entries of
`Result.report` (report.go), produced only under the caller's
`len > 0` guard; each `percentile`/`avg` call is bound through `Option`,
so an out-of-range lookup would make the whole report fail. -/
def statEntries (nm : String) (dt : List ℚ) : Option (List (String × RVal)) :=
  if 0 < dt.length then do
    let mx ← percentile dt 100
    let av ← avg dt
    let mn ← percentile dt 0
    let p99 ← percentile dt 99
    let p90 ← percentile dt 90
    let p75 ← percentile dt 75
    let p50 ← percentile dt 50
    let p25 ← percentile dt 25
    pure [(nm ++ " Max", .num mx), (nm ++ " Avg", .num av),
          (nm ++ " Min", .num mn), (nm ++ " 99th-ile", .num p99),
          (nm ++ " 90th-ile", .num p90), (nm ++ " 75th-ile", .num p75),
          (nm ++ " 50th-ile", .num p50), (nm ++ " 25th-ile", .num p25)]
  else pure []

/-- Go `func (r Result) report() map[string]interface{}` (report.go),
modelled as the entry list in insertion order.  Note the
"Total Requests Count" entry is `len(r.opDurations)` in the source.  The
transferred/throughput entries appear only for the byte-moving operations;
the duration and ttfb statistics only under the respective `len > 0`
guards.  (Division of rationals is total in Lean; Go's float division by
zero yields NaN/Inf and likewise never panics.) -/
def Result.report (r : Result) : Option (List (String × RVal)) := do
  let base : List (String × RVal) :=
    [("Operation", .str r.operation),
     ("Total Requests Count", .int (r.opDurations.length : Int))]
  let transfer : List (String × RVal) :=
    if r.operation = opWrite ∨ r.operation = opRead ∨
        r.operation = opValidate then
      [("Total Transferred (MB)",
         .num ((r.bytesTransmitted : ℚ) / (1024 * 1024))),
       ("Total Throughput (MB/s)",
         .num (((r.bytesTransmitted : ℚ) / (1024 * 1024)) /
           r.totalDuration))]
    else []
  let durStats ← statEntries "Duration" r.opDurations
  let ttfbStats ← statEntries "Ttfb" r.opTtfb
  pure (base ++ transfer ++
    [("Total Duration (s)", .num r.totalDuration)] ++
    durStats ++ ttfbStats ++
    [("Errors Count", .int (r.opErrors.length : Int)),
     ("Errors", .strList r.opErrors)])

/-! ## Claim C4 -/

/-- A one-request write batch whose only request failed. -/
def resultC4 : Result :=
  { operation := opWrite, bytesTransmitted := 0, opDurations := [],
    totalDuration := 1, opTtfb := [], opErrors := ["network error"] }

/-- C4 (failing input): for a batch of one failed request, the report's
"Total Requests Count" entry is 0 (= `len(opDurations)`, the success count),
while the batch's total request count `len(opDurations) + len(opErrors)`
is 1: the code counts only successes. -/
theorem totalRequestsCount_counts_successes_only :
    ∃ l, Result.report resultC4 = some l ∧
      l.lookup "Total Requests Count" = some (RVal.int 0) ∧
      resultC4.opDurations.length + resultC4.opErrors.length = 1 := by
  exact ⟨_, rfl, rfl, rfl⟩

/-! ## Claim C7 -/

/-- The sixteen per-sample-list statistics keys of the report. -/
def statKeys : List String :=
  ["Duration Max", "Duration Avg", "Duration Min", "Duration 99th-ile",
   "Duration 90th-ile", "Duration 75th-ile", "Duration 50th-ile",
   "Duration 25th-ile", "Ttfb Max", "Ttfb Avg", "Ttfb Min",
   "Ttfb 99th-ile", "Ttfb 90th-ile", "Ttfb 75th-ile", "Ttfb 50th-ile",
   "Ttfb 25th-ile"]

/-- On a non-empty list `percentile` succeeds for every query in
`[0, 100]` — exactly the queries `Result.report` issues. -/
theorem percentile_isSome (dt : List ℚ) (hne : dt ≠ []) (p : Int)
    (hp0 : 0 ≤ p) (hp100 : p ≤ 100) : (percentile dt p).isSome := by
  have hlen : 0 < dt.length := List.length_pos.mpr hne
  by_cases h100 : 100 ≤ p
  · have hi : percentileIdx dt.length p = (dt.length : Int) - 1 := by
      simp only [percentileIdx]; rw [if_pos h100]
    rw [percentile, hi, if_pos (by omega), List.get?_eq_getElem?,
      List.getElem?_eq_getElem (by omega)]
    rfl
  · by_cases hp : 0 < p
    · have hlt : p < 100 := by omega
      have hptn : p.toNat < 100 := by omega
      have hidx : p.toNat * dt.length / 100 < dt.length := by
        have h1 : p.toNat * dt.length < dt.length * 100 := by
          have := Nat.mul_lt_mul_of_lt_of_le hptn (Nat.le_refl dt.length)
          omega
        exact Nat.div_lt_of_lt_mul (by omega)
      have hi : percentileIdx dt.length p =
          ((p.toNat * dt.length / 100 : Nat) : Int) := by
        simp only [percentileIdx]
        rw [if_neg (by omega), if_pos ⟨hp, hlt⟩, Int.ofNat_ediv]
        push_cast [Int.toNat_of_nonneg (le_of_lt hp)]
        rfl
      rw [percentile, hi, if_pos (by positivity), Int.toNat_natCast,
        List.get?_eq_getElem?, List.getElem?_eq_getElem hidx]
      rfl
    · have hz : p = 0 := by omega
      subst hz
      have hi : percentileIdx dt.length 0 = 0 := by
        simp only [percentileIdx]
        rw [if_neg (by decide), if_neg (by decide)]
      rw [percentile, hi, if_pos le_rfl, List.get?_eq_getElem?,
        List.getElem?_eq_getElem (by omega)]
      rfl

/-- The guarded statistics block always succeeds. -/
theorem statEntries_isSome (nm : String) (dt : List ℚ) :
    (statEntries nm dt).isSome := by
  by_cases h : 0 < dt.length
  · have hne : dt ≠ [] := by
      cases dt with
      | nil => simp at h
      | cons a t => simp
    obtain ⟨mx, hmx⟩ := Option.isSome_iff_exists.mp
      (percentile_isSome dt hne 100 (by decide) (by decide))
    obtain ⟨mn, hmn⟩ := Option.isSome_iff_exists.mp
      (percentile_isSome dt hne 0 (by decide) (by decide))
    obtain ⟨p99, h99⟩ := Option.isSome_iff_exists.mp
      (percentile_isSome dt hne 99 (by decide) (by decide))
    obtain ⟨p90, h90⟩ := Option.isSome_iff_exists.mp
      (percentile_isSome dt hne 90 (by decide) (by decide))
    obtain ⟨p75, h75⟩ := Option.isSome_iff_exists.mp
      (percentile_isSome dt hne 75 (by decide) (by decide))
    obtain ⟨p50, h50⟩ := Option.isSome_iff_exists.mp
      (percentile_isSome dt hne 50 (by decide) (by decide))
    obtain ⟨p25, h25⟩ := Option.isSome_iff_exists.mp
      (percentile_isSome dt hne 25 (by decide) (by decide))
    have hav : avg dt = some (dt.sum / (dt.length : ℚ)) := by
      rw [avg, if_neg (by omega)]
    simp [statEntries, h, hmx, hmn, h99, h90, h75, h50, h25, hav]
  · simp [statEntries, h]

/-- C7: `percentile` fails on an empty sample list for every query (and so
does `avg`); inside `Result.report` every statistics query is guarded by
non-emptiness of the queried list, so the report always succeeds; and for a
batch with no successes (both sample lists empty) the report contains no
duration or ttfb statistics entry at all. -/
theorem report_stats_guarded :
    (∀ p : Int, percentile [] p = none) ∧
    avg [] = none ∧
    (∀ r : Result, (Result.report r).isSome) ∧
    (∀ r : Result, r.opDurations = [] → r.opTtfb = [] →
      ∀ l, Result.report r = some l → ∀ k ∈ l.map Prod.fst,
        k ∉ statKeys) := by
  refine ⟨?_, rfl, ?_, ?_⟩
  · intro p
    have h0 : (([] : List ℚ).length : Int) = 0 := rfl
    simp only [percentile, percentileIdx, h0, List.length_nil]
    split_ifs <;> simp
  · intro r
    obtain ⟨l1, h1⟩ :=
      Option.isSome_iff_exists.mp (statEntries_isSome "Duration" r.opDurations)
    obtain ⟨l2, h2⟩ :=
      Option.isSome_iff_exists.mp (statEntries_isSome "Ttfb" r.opTtfb)
    simp [Result.report, h1, h2]
  · intro r hdur httfb l hl k hk
    have h1 : statEntries "Duration" r.opDurations = some [] := by
      rw [hdur]; rfl
    have h2 : statEntries "Ttfb" r.opTtfb = some [] := by
      rw [httfb]; rfl
    simp [Result.report, h1, h2] at hl
    by_cases hop : (r.operation = opWrite ∨ r.operation = opRead ∨
        r.operation = opValidate)
    · rw [if_pos hop] at hl
      subst hl
      simp at hk
      rcases hk with rfl | rfl | rfl | rfl | rfl | rfl | rfl <;> decide
    · rw [if_neg hop] at hl
      subst hl
      simp at hk
      rcases hk with rfl | rfl | rfl | rfl | rfl <;> decide

/-- The spec example for C7: a 10-request write batch in which every request
failed. -/
def resultC7 : Result :=
  { operation := opWrite, bytesTransmitted := 0, opDurations := [],
    totalDuration := 1, opTtfb := [],
    opErrors := ["e1", "e2", "e3", "e4", "e5", "e6", "e7", "e8", "e9", "e10"] }

/-- Witness for C7: the empty-list percentile query fails, yet the report of
the all-failed batch succeeds and its "Operation" key is (like every other
key it contains) not a statistics key. -/
theorem report_stats_guarded_witness :
    percentile [] 50 = none ∧
    (Result.report resultC7).isSome ∧
    "Operation" ∉ statKeys := by
  have h := report_stats_guarded
  refine ⟨h.1 50, h.2.2.1 resultC7, ?_⟩
  exact h.2.2.2 resultC7 rfl rfl _ rfl "Operation" (by decide)

/-! ## The report key reordering/filter (`keysSort`, report.go) -/

/-- Lexicographic less-or-equal on character lists, the order used by Go's
`sort.Strings` (byte-wise comparison; UTF-8 byte order and code-point order
coincide). -/
def lexLe : List Char → List Char → Bool
  | [], _ => true
  | _ :: _, [] => false
  | a :: as, b :: bs =>
    if a < b then true else if b < a then false else lexLe as bs

/-- Go `strings.TrimSpace` (report.go applies it to every directive). -/
def goTrim (s : String) : String :=
  ⟨((s.data.dropWhile Char.isWhitespace).reverse.dropWhile
      Char.isWhitespace).reverse⟩

/-- Go `strings.HasPrefix`. -/
def goHasPref (s pre : String) : Bool :=
  pre.data.isPrefixOf s.data

/-- Go `fv[1:]` (dropping the leading `-`, a one-byte character). -/
def goDrop1 (s : String) : String := ⟨s.data.drop 1⟩

/-- Go `sort.Strings` (ascending lexicographic). -/
def sortStrings (keys : List String) : List String :=
  List.insertionSort (fun a b => lexLe a.data b.data = true) keys

/-- The loop state of `keysSort`: the current key list and the
`cur_formated` cursor (number of keys already placed at the front). -/
structure SortSt where
  keys : List String
  cur : Nat
deriving DecidableEq, Repr

/-- One iteration of the `keysSort` directive loop (report.go):
trim the directive, strip a leading `-` (deletion), look the key up with
`indexOf`; absent keys are skipped; present keys are removed via
`keys = append(keys[:ci], keys[ci+1:]...)` and, for a non-deleting
directive, reinserted at index `cur_formated` via
`append(keys[:cur_formated], append([]string{fv}, keys[cur_formated:]...)...)`.
That reinsertion re-slices `keys[cur_formated:]`, which panics
("slice bounds out of range") whenever `cur_formated` exceeds the length of
the shortened list — reachable only when a directive re-moves an already
placed key; the panic is modelled by `none`. -/
def keysSortStep (st : SortSt) (fv0 : String) : Option SortSt :=
  let fv1 := goTrim fv0
  let should_del := goHasPref fv1 "-"
  let fv := if should_del then goDrop1 fv1 else fv1
  let ci := indexOf st.keys fv
  if ci < 0 then some st
  else
    let keys := st.keys.eraseIdx ci.toNat
    if should_del then some { keys := keys, cur := st.cur }
    else if st.cur ≤ keys.length then
      some { keys := keys.insertIdx st.cur fv, cur := st.cur + 1 }
    else none

/-- The directive loop of `keysSort`: one `keysSortStep` per directive, a
panic in any iteration aborting the call. -/
def keysSortLoop : SortSt → List String → Option SortSt
  | st, [] => some st
  | st, d :: rest =>
    match keysSortStep st d with
    | none => none
    | some st1 => keysSortLoop st1 rest

/-- Go `func keysSort(keys []string, format []string) []string` (report.go):
sort the keys alphabetically, then run the directive loop over `format`. -/
def keysSort (keys : List String) (format : List String) :
    Option (List String) :=
  (keysSortLoop { keys := sortStrings keys, cur := 0 } format).map SortSt.keys

/-- The result of `indexOf` is negative exactly for absent keys. -/
theorem indexOf_neg_iff (sls : List String) (s : String) :
    indexOf sls s < 0 ↔ s ∉ sls := by
  induction sls with
  | nil => simp [indexOf]
  | cons v rest ih =>
    rw [indexOf]
    by_cases hv : v = s
    · simp [hv]
    · rw [if_neg hv]
      show (if indexOf rest s < 0 then (-1 : Int)
        else indexOf rest s + 1) < 0 ↔ s ∉ v :: rest
      by_cases hr : indexOf rest s < 0
      · rw [if_pos hr]
        constructor
        · intro _
          simp only [List.mem_cons, not_or]
          exact ⟨fun hh => hv hh.symm, ih.mp hr⟩
        · intro _
          decide
      · rw [if_neg hr]
        constructor
        · intro hcon
          omega
        · intro hns
          simp only [List.mem_cons, not_or] at hns
          exact absurd (ih.mpr hns.2) hr

/-- For a present key, `indexOf` is nonnegative and erasing at that index is
erasing the first occurrence of the key. -/
theorem indexOf_mem_spec (sls : List String) (s : String) (h : s ∈ sls) :
    0 ≤ indexOf sls s ∧
      sls.eraseIdx (indexOf sls s).toNat = sls.erase s := by
  induction sls with
  | nil => simp at h
  | cons v rest ih =>
    rw [indexOf]
    by_cases hv : v = s
    · subst hv
      rw [if_pos rfl]
      refine ⟨le_rfl, ?_⟩
      simp [List.eraseIdx, List.erase_cons_head]
    · rw [if_neg hv]
      have hmem : s ∈ rest := by
        rcases List.mem_cons.mp h with h1 | h1
        · exact absurd h1.symm hv
        · exact h1
      obtain ⟨ih1, ih2⟩ := ih hmem
      rw [if_neg (by omega)]
      refine ⟨by omega, ?_⟩
      have htn : (indexOf rest s + 1).toNat = (indexOf rest s).toNat + 1 := by
        omega
      rw [htn]
      rw [List.eraseIdx_cons_succ, ih2,
        List.erase_cons_tail]
      simp [hv]

/-- A found, non-deleting directive removes the key's first occurrence and
reinserts it at the cursor, advancing the cursor (the in-range case of the
reinsertion, `cur_formated ≤ len(keys)-1`). -/
theorem keysSortStep_move (keys : List String) (cur : Nat) (d : String)
    (hsd : goHasPref (goTrim d) "-" = false) (hmem : (goTrim d) ∈ keys)
    (hcur : cur + 1 ≤ keys.length) :
    keysSortStep ⟨keys, cur⟩ d =
      some ⟨(keys.erase (goTrim d)).insertIdx cur (goTrim d), cur + 1⟩ := by
  obtain ⟨h0, herase⟩ := indexOf_mem_spec keys (goTrim d) hmem
  have hlen : (keys.erase (goTrim d)).length = keys.length - 1 :=
    List.length_erase_of_mem hmem
  have hneg : ¬ indexOf keys (goTrim d) < 0 := not_lt.mpr h0
  simp only [keysSortStep, hsd, Bool.false_eq_true, if_false]
  rw [if_neg hneg, herase, if_pos (by omega)]

/-- A found deleting directive removes the key's first occurrence and leaves
the cursor unchanged. -/
theorem keysSortStep_del (keys : List String) (cur : Nat) (d : String)
    (hsd : goHasPref (goTrim d) "-" = true) (hmem : goDrop1 (goTrim d) ∈ keys) :
    keysSortStep ⟨keys, cur⟩ d =
      some ⟨keys.erase (goDrop1 (goTrim d)), cur⟩ := by
  obtain ⟨h0, herase⟩ := indexOf_mem_spec keys (goDrop1 (goTrim d)) hmem
  have hneg : ¬ indexOf keys (goDrop1 (goTrim d)) < 0 := not_lt.mpr h0
  simp only [keysSortStep, hsd, if_true]
  rw [if_neg hneg, herase]

/-- A directive naming an absent key leaves the state unchanged. -/
theorem keysSortStep_skip (keys : List String) (cur : Nat) (d : String)
    (habs : (if goHasPref (goTrim d) "-" then goDrop1 (goTrim d) else (goTrim d)) ∉
      keys) :
    keysSortStep ⟨keys, cur⟩ d = some ⟨keys, cur⟩ := by
  cases hsd : goHasPref (goTrim d) "-" with
  | false =>
    rw [hsd] at habs
    simp only [if_false, Bool.false_eq_true] at habs
    have hneg : indexOf keys (goTrim d) < 0 := (indexOf_neg_iff _ _).mpr habs
    simp only [keysSortStep, hsd, Bool.false_eq_true, if_false]
    rw [if_pos hneg]
  | true =>
    rw [hsd] at habs
    simp only [if_true] at habs
    have hneg : indexOf keys (goDrop1 (goTrim d)) < 0 :=
      (indexOf_neg_iff _ _).mpr habs
    simp only [keysSortStep, hsd, if_true]
    rw [if_pos hneg]

/-! ## Claim C5 -/

/-- C5 (counterexample): the claim's directive semantics ("removes the key
and reinserts it at the already-placed cursor") does not hold for every key
set and directive list: at keys `{a, b}` with directives
`["a", "b", "b"]`, the third directive erases `b` and then re-slices
`keys[cur_formated:]` with `cur_formated = 2` on a slice of length 1 — a Go
runtime panic (slice bounds out of range [2:1]) instead of a reinsertion. -/
theorem keysSort_move_crash_counterexample :
    goHasPref (goTrim "b") "-" = false ∧
    keysSort ["a", "b"] ["a", "b", "b"] = none := by decide

/-- C5 (amended): `keysSort` sorts the keys alphabetically and then applies
the directives in order; a `"key"` directive removes the key from its
current position and reinserts it at the already-placed cursor (which
advances) whenever that cursor is in range for the shortened list (always
the case until some key is moved twice; past the end the code panics, see
the counterexample), a `"-key"` directive removes the key without
reinsertion, a directive naming an absent key changes nothing; directives
`["b", "-a"]` on keys `{a, b, c}` yield the final order `b, c`. -/
theorem keysSort_directive_semantics :
    (∀ (keys : List String) (cur : Nat) (d : String),
      goHasPref (goTrim d) "-" = false → (goTrim d) ∈ keys →
        cur + 1 ≤ keys.length →
        keysSortStep ⟨keys, cur⟩ d =
          some ⟨(keys.erase (goTrim d)).insertIdx cur (goTrim d), cur + 1⟩) ∧
    (∀ (keys : List String) (cur : Nat) (d : String),
      goHasPref (goTrim d) "-" = true → goDrop1 (goTrim d) ∈ keys →
        keysSortStep ⟨keys, cur⟩ d =
          some ⟨keys.erase (goDrop1 (goTrim d)), cur⟩) ∧
    (∀ (keys : List String) (cur : Nat) (d : String),
      (if goHasPref (goTrim d) "-" then goDrop1 (goTrim d) else (goTrim d)) ∉ keys →
        keysSortStep ⟨keys, cur⟩ d = some ⟨keys, cur⟩) ∧
    (∀ ks : List String, keysSort ks [] = some (sortStrings ks)) ∧
    keysSort ["a", "b", "c"] ["b", "-a"] = some ["b", "c"] :=
  ⟨keysSortStep_move, keysSortStep_del, keysSortStep_skip,
    fun _ => rfl, by decide⟩

/-- Witness for C5: the three directive cases at concrete states, as they
occur while processing keys `{a, b, c}` with directives `["b", "-a", "z"]`. -/
theorem keysSort_directive_semantics_witness :
    keysSortStep ⟨["a", "b", "c"], 0⟩ "b" = some ⟨["b", "a", "c"], 1⟩ ∧
    keysSortStep ⟨["b", "a", "c"], 1⟩ "-a" = some ⟨["b", "c"], 1⟩ ∧
    keysSortStep ⟨["b", "c"], 1⟩ "z" = some ⟨["b", "c"], 1⟩ := by
  have h := keysSort_directive_semantics
  refine ⟨?_, ?_, ?_⟩
  · exact (h.1 ["a", "b", "c"] 0 "b" (by decide) (by decide)
      (by decide)).trans (by decide)
  · exact (h.2.1 ["b", "a", "c"] 1 "-a" (by decide) (by decide)).trans
      (by decide)
  · exact h.2.2.1 ["b", "c"] 1 "z" (by decide)

/-! ## Claim C6 -/

/-- C6 (counterexample): the directive list `["a", "a"]` contains no
"-"-prefixed directive, yet `keysSort(["a"], ["a", "a"])` already fails: the
second `"a"` directive erases the key and then re-slices
`keys[cur_formated:]` with `cur_formated = 1` on a slice of length 0, a Go
runtime panic (slice bounds out of range [1:0]).  The idempotence equation
therefore fails: the first application crashes. -/
theorem keysSort_repeat_directive_crash :
    goHasPref (goTrim "a") "-" = false ∧
    keysSort ["a"] ["a", "a"] = none := by decide

theorem lexLe_total (a b : List Char) : lexLe a b = true ∨ lexLe b a = true := by
  induction a generalizing b with
  | nil => left; rfl
  | cons x xs ih =>
    cases b with
    | nil => right; rfl
    | cons y ys =>
      rcases lt_trichotomy x y with h | h | h
      · left; simp [lexLe, h]
      · subst h
        rcases ih ys with h2 | h2
        · left; simp [lexLe, lt_irrefl, h2]
        · right; simp [lexLe, lt_irrefl, h2]
      · right; simp [lexLe, h]

theorem lexLe_trans {a b c : List Char} (h1 : lexLe a b = true)
    (h2 : lexLe b c = true) : lexLe a c = true := by
  induction a generalizing b c with
  | nil => rfl
  | cons x xs ih =>
    cases b with
    | nil => simp [lexLe] at h1
    | cons y ys =>
      cases c with
      | nil => simp [lexLe] at h2
      | cons z zs =>
        rw [lexLe] at h1 h2 ⊢
        by_cases hxy : x < y
        · by_cases hyz : y < z
          · rw [if_pos (lt_trans hxy hyz)]
          · by_cases hzy : z < y
            · rw [if_neg hyz, if_pos hzy] at h2
              exact absurd h2 (by simp)
            · have hyz_eq : y = z :=
                le_antisymm (not_lt.mp hzy) (not_lt.mp hyz)
              subst hyz_eq
              rw [if_pos hxy]
        · by_cases hyx : y < x
          · rw [if_neg hxy, if_pos hyx] at h1
            exact absurd h1 (by simp)
          · have hxy_eq : x = y :=
              le_antisymm (not_lt.mp hyx) (not_lt.mp hxy)
            subst hxy_eq
            rw [if_neg hxy, if_neg hyx] at h1
            by_cases hxz : x < z
            · rw [if_pos hxz]
            · by_cases hzx : z < x
              · rw [if_neg hxz, if_pos hzx] at h2
                exact absurd h2 (by simp)
              · rw [if_neg hxz, if_neg hzx] at h2 ⊢
                exact ih h1 h2

theorem lexLe_antisymm {a b : List Char} (h1 : lexLe a b = true)
    (h2 : lexLe b a = true) : a = b := by
  induction a generalizing b with
  | nil =>
    cases b with
    | nil => rfl
    | cons y ys => simp [lexLe] at h2
  | cons x xs ih =>
    cases b with
    | nil => simp [lexLe] at h1
    | cons y ys =>
      rw [lexLe] at h1 h2
      by_cases hxy : x < y
      · rw [if_neg (asymm hxy), if_pos hxy] at h2
        exact absurd h2 (by simp)
      · by_cases hyx : y < x
        · rw [if_neg hxy, if_pos hyx] at h1
          exact absurd h1 (by simp)
        · have hxy_eq : x = y :=
            le_antisymm (not_lt.mp hyx) (not_lt.mp hxy)
          subst hxy_eq
          rw [if_neg hxy, if_neg hxy] at h1
          rw [if_neg hxy, if_neg hxy] at h2
          exact congrArg (List.cons x) (ih h1 h2)

instance : IsTrans String (fun a b => lexLe a.data b.data = true) :=
  ⟨fun _ _ _ h1 h2 => lexLe_trans h1 h2⟩

instance : IsTotal String (fun a b => lexLe a.data b.data = true) :=
  ⟨fun a b => lexLe_total a.data b.data⟩

instance : IsAntisymm String (fun a b => lexLe a.data b.data = true) :=
  ⟨fun a b h1 h2 => by
    cases a with
    | mk da =>
      cases b with
      | mk db => exact congrArg String.mk (lexLe_antisymm h1 h2)⟩

/-- Over a run of non-deleting, pairwise-distinct (after trimming)
directives, the directive loop never panics and only permutes the key list.
`moved` tracks the keys already placed at the front (the cursor value): they
are distinct, still present, and no remaining directive names one of them
again, which keeps every reinsertion in range. -/
theorem keysSortLoop_perm :
    ∀ (fmt : List String) (keys : List String) (cur : Nat)
      (moved : List String),
      (∀ d ∈ fmt, goHasPref (goTrim d) "-" = false) →
      (fmt.map goTrim).Nodup →
      (∀ d ∈ fmt, goTrim d ∉ moved) →
      moved.Nodup →
      (∀ m ∈ moved, m ∈ keys) →
      cur = moved.length →
      ∃ st' : SortSt, keysSortLoop ⟨keys, cur⟩ fmt = some st' ∧
        List.Perm st'.keys keys := by
  intro fmt
  induction fmt with
  | nil =>
    intro keys cur moved _ _ _ _ _ _
    exact ⟨⟨keys, cur⟩, rfl, List.Perm.refl _⟩
  | cons d rest ih =>
    intro keys cur moved h1 h2 h3 h4 h5 h6
    have hsd : goHasPref (goTrim d) "-" = false :=
      h1 d (List.mem_cons_self _ _)
    have h2' : (rest.map goTrim).Nodup := by
      rw [List.map_cons] at h2
      exact (List.nodup_cons.mp h2).2
    have hdnotin : goTrim d ∉ rest.map goTrim := by
      rw [List.map_cons] at h2
      exact (List.nodup_cons.mp h2).1
    by_cases hmem : goTrim d ∈ keys
    · have hfvnm : goTrim d ∉ moved := h3 d (List.mem_cons_self _ _)
      have hnodup1 : (goTrim d :: moved).Nodup :=
        List.nodup_cons.mpr ⟨hfvnm, h4⟩
      have hsubset : ∀ m ∈ goTrim d :: moved, m ∈ keys := by
        intro m hm
        rcases List.mem_cons.mp hm with rfl | hm2
        · exact hmem
        · exact h5 m hm2
      have hlen : moved.length + 1 ≤ keys.length := by
        have hsp := List.subperm_of_subset hnodup1 fun m hm => hsubset m hm
        have hle := hsp.length_le
        simpa using hle
      have hcur : cur + 1 ≤ keys.length := by omega
      have hstep := keysSortStep_move keys cur d hsd hmem hcur
      have hperm1 : List.Perm
          ((keys.erase (goTrim d)).insertIdx cur (goTrim d)) keys := by
        have e1 : List.Perm
            ((keys.erase (goTrim d)).insertIdx cur (goTrim d))
            (goTrim d :: keys.erase (goTrim d)) := by
          apply List.perm_insertIdx
          have := List.length_erase_of_mem hmem
          have hpos : 0 < keys.length :=
            List.length_pos.mpr (List.ne_nil_of_mem hmem)
          omega
        exact e1.trans (List.perm_cons_erase hmem).symm
      obtain ⟨st', hf, hp⟩ :=
        ih ((keys.erase (goTrim d)).insertIdx cur (goTrim d)) (cur + 1)
          (goTrim d :: moved)
          (fun d' hd' => h1 d' (List.mem_cons_of_mem _ hd'))
          h2'
          (by
            intro d' hd'
            simp only [List.mem_cons, not_or]
            refine ⟨?_, h3 d' (List.mem_cons_of_mem _ hd')⟩
            intro hEq
            exact hdnotin (hEq ▸ List.mem_map_of_mem goTrim hd'))
          hnodup1
          (by
            intro m hm
            exact (hperm1.mem_iff).mpr (hsubset m hm))
          (by simp [h6])
      refine ⟨st', ?_, hp.trans hperm1⟩
      rw [keysSortLoop, hstep]
      exact hf
    · have habs :
          (if goHasPref (goTrim d) "-" then goDrop1 (goTrim d)
            else goTrim d) ∉ keys := by
        rw [hsd]
        simpa using hmem
      have hstep := keysSortStep_skip keys cur d habs
      obtain ⟨st', hf, hp⟩ :=
        ih keys cur moved
          (fun d' hd' => h1 d' (List.mem_cons_of_mem _ hd'))
          h2'
          (fun d' hd' => h3 d' (List.mem_cons_of_mem _ hd'))
          h4 h5 h6
      refine ⟨st', ?_, hp⟩
      rw [keysSortLoop, hstep]
      exact hf

/-- Sorting is invariant under permutation of the input. -/
theorem sortStrings_eq_of_perm (l1 l2 : List String)
    (h : List.Perm l1 l2) : sortStrings l1 = sortStrings l2 := by
  have hs1 : List.Sorted (fun a b : String => lexLe a.data b.data = true)
      (sortStrings l1) := List.sorted_insertionSort _ l1
  have hs2 : List.Sorted (fun a b : String => lexLe a.data b.data = true)
      (sortStrings l2) := List.sorted_insertionSort _ l2
  have hperm : List.Perm (sortStrings l1) (sortStrings l2) :=
    (List.perm_insertionSort _ l1).trans
      (h.trans (List.perm_insertionSort _ l2).symm)
  exact List.eq_of_perm_of_sorted hperm hs1 hs2

/-- C6 (amended): for a directive list with no "-"-prefixed directive *and
no repeated directive* (after trimming), `keysSort` succeeds and is
idempotent: the result of the first application is a fixed point.  (With a
repeated non-deleting directive the Go code can panic, see the
counterexample, so the distinctness hypothesis is needed.) -/
theorem keysSort_idempotent_nodup (ks fmt : List String)
    (hnd : ∀ d ∈ fmt, goHasPref (goTrim d) "-" = false)
    (hdist : (fmt.map goTrim).Nodup) :
    ∃ r, keysSort ks fmt = some r ∧ keysSort r fmt = some r := by
  obtain ⟨st', hf, hp⟩ :=
    keysSortLoop_perm fmt (sortStrings ks) 0 [] hnd hdist
      (by simp) List.nodup_nil (by simp) rfl
  refine ⟨st'.keys, ?_, ?_⟩
  · rw [keysSort, hf]
    rfl
  · have hperm2 : List.Perm st'.keys (sortStrings ks) := hp
    have heq : sortStrings st'.keys = sortStrings ks := by
      have h1 : sortStrings st'.keys = sortStrings (sortStrings ks) :=
        sortStrings_eq_of_perm _ _ hperm2
      have h2 : sortStrings (sortStrings ks) = sortStrings ks := by
        have hs1 : List.Sorted
            (fun a b : String => lexLe a.data b.data = true)
            (sortStrings (sortStrings ks)) :=
          List.sorted_insertionSort _ _
        have hs2 : List.Sorted
            (fun a b : String => lexLe a.data b.data = true)
            (sortStrings ks) := List.sorted_insertionSort _ _
        exact List.eq_of_perm_of_sorted
          (List.perm_insertionSort _ _) hs1 hs2
      rw [h1, h2]
    rw [keysSort, heq, hf]
    rfl

/-- Witness for C6 at keys `{c, a, b}` and the single non-deleting directive
`["b"]`: the first application front-loads `b` (giving `b, a, c`) and the
second application reproduces the same order. -/
theorem keysSort_idempotent_nodup_witness :
    keysSort ["c", "a", "b"] ["b"] = some ["b", "a", "c"] ∧
    keysSort ["b", "a", "c"] ["b"] = some ["b", "a", "c"] := by
  obtain ⟨r, hr1, hr2⟩ :=
    keysSort_idempotent_nodup ["c", "a", "b"] ["b"] (by decide) (by decide)
  have hc : keysSort ["c", "a", "b"] ["b"] = some ["b", "a", "c"] := by decide
  have hreq : r = ["b", "a", "c"] := by
    have := hr1.symm.trans hc
    exact Option.some.inj this
  exact ⟨hc, hreq ▸ hr2⟩
